import Mathlib

/-!
Shallow embedding of the provision parser shared by `src/gen_jsonl.py` and
`src/gen_vertex_jsonl.py` of the `san-rag` repository, together with theorems
settling the frozen claims about it.

Conventions of the embedding:
* Python strings are Lean `String`s; all operations are implemented over the
  underlying `List Char` (`String.data`), mirroring Python's per-code-point
  semantics (`len`, slicing, `strip`, `replace`).
* Python `None`-able fields become `Option`; Python truthiness of an optional
  int (`if state.chapter_no:`) is `pyTruthy` (set and nonzero), while
  `is not None` checks are `Option.isSome` / pattern matches.
* The regular expressions are fixed patterns anchored with `match`/`search`;
  each is hand-compiled to an explicit matcher over `List Char`.  `\d` is
  modelled as the ASCII digits and `\s` as Python's whitespace set.
* Page indices and counters are `Nat` (they arise from `enumerate` and from
  digit strings, so they are nonnegative in the source as well).
-/

/-- Python's whitespace set used by `str.strip()` and the regex class `\s`
(for `str` patterns). -/
def isPySpace (c : Char) : Bool :=
  let n := c.toNat
  n = 0x20 || (0x9 ≤ n && n ≤ 0xD) || (0x1C ≤ n && n ≤ 0x1F) || n = 0x85 ||
  n = 0xA0 || n = 0x1680 || (0x2000 ≤ n && n ≤ 0x200A) || n = 0x2028 ||
  n = 0x2029 || n = 0x202F || n = 0x205F || n = 0x3000

/-- Strip `isPySpace` characters from both ends of a character list
(Python `str.strip()`). -/
def stripChars (cs : List Char) : List Char :=
  ((cs.dropWhile isPySpace).reverse.dropWhile isPySpace).reverse

/-- Python `line.strip()`. -/
def pyStrip (s : String) : String := ⟨stripChars s.data⟩

/-- Python `"\n".join(lines)`. -/
def joinNL : List String → String
  | [] => ""
  | [a] => a
  | a :: b :: rest => a ++ "\n" ++ joinNL (b :: rest)

/-- Python `sep.join(parts)` for a general separator (used with `":"`
and `"_"` by the two `make_id` variants). -/
def joinSep (sep : String) : List String → String
  | [] => ""
  | [a] => a
  | a :: b :: rest => a ++ sep ++ joinSep sep (b :: rest)

/-- Python `date.replace("-", "")`: the pattern is the single character `-`,
so the replacement removes every dash. -/
def dashless (s : String) : String := ⟨s.data.filter (fun c => c ≠ '-')⟩

/-- Python truthiness of an `Optional[int]` (`if state.chapter_no:`):
set and nonzero. -/
def pyTruthy : Option Nat → Bool
  | none => false
  | some n => n ≠ 0

/-- POSIX `os.path.basename`: the part after the last `/`. -/
def pyBasename (s : String) : String :=
  ⟨s.data.foldl (fun acc c => if c = '/' then [] else acc ++ [c]) []⟩

namespace SanRag

/-- The seven marker levels `["장", "절", "조", "항", "호", "목", "세목"]`
(chapter, section, article, paragraph, item, sub-item, sub-sub-item), in the
`order` list used by `ParseState.reset_lower`.  The preamble level `"문서"`
(document) is represented as `none` in an `Option MarkerLevel`. -/
inductive MarkerLevel where
  | jang | jeol | jo | hang | ho | mok | semok
deriving DecidableEq

/-- `order.index(level)` for the `order` list of `reset_lower`. -/
def levelIdx : MarkerLevel → Nat
  | .jang => 0
  | .jeol => 1
  | .jo => 2
  | .hang => 3
  | .ho => 4
  | .mok => 5
  | .semok => 6

/-- The Korean string naming each level, as stored in emitted nodes. -/
def levelName : MarkerLevel → String
  | .jang => "장"
  | .jeol => "절"
  | .jo => "조"
  | .hang => "항"
  | .ho => "호"
  | .mok => "목"
  | .semok => "세목"

/-- `normalize_mok` of both generators: offset of the syllable from `가`
(computed in `Int`, as Python's `ord` arithmetic can go negative), with
offsets outside `[0, 50]` falling back to `'a'` and the rest mapped to
`chr(ord('a') + idx)`. -/
def normalize_mok (ch : Char) : Char :=
  let idx : Int := (ch.toNat : Int) - 0xAC00
  if idx < 0 ∨ idx > 50 then 'a' else Char.ofNat (97 + idx.toNat)

/-- `CIRCLED_MAP.get(ch)`: the dict maps `①` (U+2460) through `⑳` (U+2473)
to `1..20`. -/
def circledMap (c : Char) : Option Nat :=
  if 0x2460 ≤ c.toNat ∧ c.toNat ≤ 0x2473 then some (c.toNat - 0x245F) else none

/-- `ParseState` — the dataclass shared verbatim by `gen_jsonl.py` and
`gen_vertex_jsonl.py` (the parse cursor).  `mok` holds the single-character
string produced by `normalize_mok`. -/
structure ParseState where
  chapter_no : Option Nat := none
  section_no : Option Nat := none
  article_no : Option Nat := none
  article_title : Option String := none
  hang : Option Nat := none
  ho : Option Nat := none
  mok : Option Char := none
  semok : Option Nat := none
  buffer_lines : List String := []
  start_page : Option Nat := none
  end_page : Option Nat := none
deriving DecidableEq

/-- The freshly initialised cursor `ParseState()`. -/
def emptyState : ParseState := {}

/-- `ParseState.reset_lower` (identical in both generators): the loop clears
field `lv` exactly when `order.index(lv) ≥ order.index(level)` — written here
as one conditional per field — and unconditionally clears the buffer and both
page trackers. -/
def reset_lower (st : ParseState) (level : MarkerLevel) : ParseState :=
  let idx := levelIdx level
  { st with
    chapter_no := if idx ≤ 0 then none else st.chapter_no
    section_no := if idx ≤ 1 then none else st.section_no
    article_no := if idx ≤ 2 then none else st.article_no
    article_title := if idx ≤ 2 then none else st.article_title
    hang := if idx ≤ 3 then none else st.hang
    ho := if idx ≤ 4 then none else st.ho
    mok := if idx ≤ 5 then none else st.mok
    semok := if idx ≤ 6 then none else st.semok
    buffer_lines := []
    start_page := none
    end_page := none }

/-- `current_level` of both generators: the deepest field that
`is not None`, or `none` for the Python string `"문서"` (document level). -/
def current_level (st : ParseState) : Option MarkerLevel :=
  if st.semok.isSome then some .semok
  else if st.mok.isSome then some .mok
  else if st.ho.isSome then some .ho
  else if st.hang.isSome then some .hang
  else if st.article_no.isSome then some .jo
  else if st.section_no.isSome then some .jeol
  else if st.chapter_no.isSome then some .jang
  else none

/-- `display_hang`: the first key of `CIRCLED_MAP` whose value is `n`
(the circled glyph `chr(0x245F + n)` for `1 ≤ n ≤ 20`), else `f"({n})"`. -/
def display_hang (n : Nat) : String :=
  if 1 ≤ n ∧ n ≤ 20 then ⟨[Char.ofNat (0x245F + n)]⟩
  else "(" ++ toString n ++ ")"

/-- `display_mok`: `chr(ord('가') + (ord(a) - ord('a'))) + "."`. -/
def display_mok (a : Char) : String :=
  ⟨[Char.ofNat (0xAC00 + (a.toNat - 97)), '.']⟩

/-- `build_path_display` (Python truthiness on the numeric fields). -/
def build_path_display (st : ParseState) : List String :=
  (if pyTruthy st.chapter_no then ["제" ++ toString (st.chapter_no.getD 0) ++ "장"] else [])
  ++ (if pyTruthy st.section_no then ["제" ++ toString (st.section_no.getD 0) ++ "절"] else [])
  ++ (if pyTruthy st.article_no then ["제" ++ toString (st.article_no.getD 0) ++ "조"] else [])
  ++ (if pyTruthy st.hang then [display_hang (st.hang.getD 0)] else [])
  ++ (if pyTruthy st.ho then [toString (st.ho.getD 0) ++ "."] else [])
  ++ (match st.mok with | some c => [display_mok c] | none => [])
  ++ (if pyTruthy st.semok then [toString (st.semok.getD 0) ++ ")"] else [])

/-- `build_path_norm` (Python truthiness; `state.mok` is a nonempty string,
hence truthy whenever set). -/
def build_path_norm (st : ParseState) : List String :=
  (if pyTruthy st.chapter_no then ["jang:" ++ toString (st.chapter_no.getD 0)] else [])
  ++ (if pyTruthy st.section_no then ["jeol:" ++ toString (st.section_no.getD 0)] else [])
  ++ (if pyTruthy st.article_no then ["jo:" ++ toString (st.article_no.getD 0)] else [])
  ++ (if pyTruthy st.hang then ["hang:" ++ toString (st.hang.getD 0)] else [])
  ++ (if pyTruthy st.ho then ["ho:" ++ toString (st.ho.getD 0)] else [])
  ++ (match st.mok with | some c => ["mok:" ++ ⟨[c]⟩] | none => [])
  ++ (if pyTruthy st.semok then ["semok:" ++ toString (st.semok.getD 0)] else [])

end SanRag

namespace SanRag

/-- Consume one expected character at the head of the list. -/
def eatChar (c : Char) : List Char → Option (List Char)
  | x :: rest => if x = c then some rest else none
  | [] => none

/-- Consume `\s*` (greedy; the characters that follow in every pattern are
never whitespace, so greediness is exact). -/
def eatWs (cs : List Char) : List Char := cs.dropWhile isPySpace

/-- Numeric value of a digit run (Python `int` on the captured group). -/
def digitsVal (ds : List Char) : Nat :=
  ds.foldl (fun a c => a * 10 + (c.toNat - 48)) 0

/-- Consume `(\d+)` (greedy, at least one ASCII digit); returns the value and
the rest of the line. -/
def digits1 (cs : List Char) : Option (Nat × List Char) :=
  let ds := cs.takeWhile Char.isDigit
  if ds = [] then none else some (digitsVal ds, cs.drop ds.length)

/-- `PATTERN_JANG`/`PATTERN_JEOL`/`PATTERN_JO`: `re.match` of
`제\s*(\d+)\s*X` where `X` is `장`, `절` or `조`. -/
def matchJeMarker (last : Char) (cs : List Char) : Option Nat :=
  match eatChar '제' cs with
  | none => none
  | some r1 =>
    match digits1 (eatWs r1) with
    | none => none
    | some (n, r2) =>
      match eatChar last (eatWs r2) with
      | none => none
      | some _ => some n

/-- `PATTERN_HANG`: `re.match` of `([①-⑳])` — one circled-numeral glyph. -/
def matchHang (cs : List Char) : Option (Char × List Char) :=
  match cs with
  | c :: rest => if 0x2460 ≤ c.toNat ∧ c.toNat ≤ 0x2473 then some (c, rest) else none
  | [] => none

/-- `PATTERN_HO`: `re.match` of `(\d+)\.`; the rest is the line after
`m.end()`. -/
def matchHo (cs : List Char) : Option (Nat × List Char) :=
  match digits1 cs with
  | none => none
  | some (n, r1) =>
    match eatChar '.' r1 with
    | none => none
    | some r2 => some (n, r2)

/-- `PATTERN_MOK`: `re.match` of `([가-힣])\.` — one Hangul syllable
(U+AC00–U+D7A3) followed by a dot. -/
def matchMok (cs : List Char) : Option (Char × List Char) :=
  match cs with
  | c :: rest =>
    if 0xAC00 ≤ c.toNat ∧ c.toNat ≤ 0xD7A3 then
      match eatChar '.' rest with
      | none => none
      | some r2 => some (c, r2)
    else none
  | [] => none

/-- `PATTERN_SEMOK`: `re.match` of `(\d+)\)`. -/
def matchSemok (cs : List Char) : Option (Nat × List Char) :=
  match digits1 cs with
  | none => none
  | some (n, r1) =>
    match eatChar ')' r1 with
    | none => none
    | some r2 => some (n, r2)

/-- `PATTERN_TITLE.search(line).group(2)`: the pattern
`^(제\s*\d+\s*조)\s*\(([^)]+)\)` is anchored by `^`, so `search` can only
match at the start of the line; `[^)]+` is the maximal nonempty run of
non-`)` characters, which must be followed by `)`.  The captured title is
then `strip()`ped by the caller (`update_title`). -/
def titleOf (cs : List Char) : Option String :=
  match eatChar '제' cs with
  | none => none
  | some r1 =>
    match digits1 (eatWs r1) with
    | none => none
    | some (_, r2) =>
      match eatChar '조' (eatWs r2) with
      | none => none
      | some r3 =>
        match eatChar '(' (eatWs r3) with
        | none => none
        | some r4 =>
          let inner := r4.takeWhile (fun c => c ≠ ')')
          if inner = [] then none
          else
            match eatChar ')' (r4.drop inner.length) with
            | none => none
            | some _ => some (pyStrip ⟨inner⟩)

/-- `update_title(line)`: overwrite `article_title` when the title pattern
matches (group 2, stripped); otherwise leave the state unchanged. -/
def applyTitle (st : ParseState) (s : String) : ParseState :=
  match titleOf s.data with
  | some t => { st with article_title := some t }
  | none => st

/-- Result of the marker tests applied to one stripped line, in the priority
order of the parse loop: 장, 절, 조, 항, then (only when an article is open)
호, 목, 세목; otherwise the line is pure body content.  For the four lower
levels the constructor carries the stripped residual text after `m.end()`. -/
inductive Classified where
  | jangM (n : Nat)
  | jeolM (n : Nat)
  | joM (n : Nat)
  | hangM (c : Char) (res : String)
  | hoM (n : Nat) (res : String)
  | mokM (c : Char) (res : String)
  | semokM (n : Nat) (res : String)
  | noMarker
deriving DecidableEq

/-- The marker dispatch of the parse loop on a stripped nonempty line `s`.
`articleOpen` is `state.article_no is not None`. -/
def classify (articleOpen : Bool) (s : String) : Classified :=
  let cs := s.data
  match matchJeMarker '장' cs with
  | some n => .jangM n
  | none =>
  match matchJeMarker '절' cs with
  | some n => .jeolM n
  | none =>
  match matchJeMarker '조' cs with
  | some n => .joM n
  | none =>
  match matchHang cs with
  | some (c, rest) => .hangM c (pyStrip ⟨rest⟩)
  | none =>
  if articleOpen then
    match matchHo cs with
    | some (n, rest) => .hoM n (pyStrip ⟨rest⟩)
    | none =>
    match matchMok cs with
    | some (c, rest) => .mokM c (pyStrip ⟨rest⟩)
    | none =>
    match matchSemok cs with
    | some (n, rest) => .semokM n (pyStrip ⟨rest⟩)
    | none => .noMarker
  else .noMarker

end SanRag

namespace SanRag

namespace GenJsonl

/-- The job descriptor consumed from the `JOBS` list of `gen_jsonl.py`
(the keys the parser reads). -/
structure Job where
  pdf : String
  doc_id : String
  doc_type : String
  official_name_ko : String
  «abbrev» : Option String := none
  promulgation_date : Option String := none
  enforcement_date : String
  emit_edges : Bool := false
deriving DecidableEq

/-- `SourceMeta` of `gen_jsonl.py`. -/
structure SourceMeta where
  file_name : String
  page_range : List Nat
deriving DecidableEq

/-- The `unit_index` dict `{"hang": …, "ho": …, "mok": …, "semok": …}`. -/
structure UnitIndex where
  hang : Option Nat
  ho : Option Nat
  mok : Option Char
  semok : Option Nat
deriving DecidableEq

/-- `ProvisionNode` of `gen_jsonl.py`.  `text_raw`/`text_clean` are typed
`Optional[str]` in the dataclass but are always populated by `flush_node`,
so they are plain strings here. -/
structure ProvisionNode where
  id : String
  doc_id : String
  doc_type : String
  law_name_ko : String
  «abbrev» : Option String
  title : Option String
  level : String
  path_display : List String
  path_norm : List String
  label_display : Option String
  label_norm : Option String
  text_raw : String
  text_clean : String
  parent_ids : List String
  article_no : Option Nat
  chapter_no : Option Nat
  section_no : Option Nat
  unit_index : UnitIndex
  effective_from : String
  effective_to : Option String
  is_current : Bool
  promulgation_date : Option String
  enforcement_date : Option String
  source : SourceMeta
deriving DecidableEq

/-- `EdgeRecord` of `gen_jsonl.py`.  The two fixed confidence constants
`0.70`/`0.55` are exact decimal fractions, modelled in `Rat`. -/
structure EdgeRecord where
  edge_id : String
  edge_type : String
  from_id : String
  to_id : Option String
  anchors : List String
  match_confidence : Rat
deriving DecidableEq

/-- `make_id` of `gen_jsonl.py`: document id, then one segment per
`is not None` field among article/hang/ho/mok/semok (`mok` as its
one-character string, `semok` with the `"p"` suffix), then the enforcement
date with dashes removed, joined with `":"`. -/
def make_id (doc_id : String) (st : ParseState) (enforcement_date : String) : String :=
  let parts := [doc_id]
    ++ (match st.article_no with | some n => [toString n] | none => [])
    ++ (match st.hang with | some n => [toString n] | none => [])
    ++ (match st.ho with | some n => [toString n] | none => [])
    ++ (match st.mok with | some c => [(⟨[c]⟩ : String)] | none => [])
    ++ (match st.semok with | some n => [toString n ++ "p"] | none => [])
    ++ [dashless enforcement_date]
  joinSep ":" parts

/-- `re.sub(r"\s+", " ", text)`: every maximal whitespace run becomes one
space. -/
def collapseWsChars : List Char → List Char
  | [] => []
  | [c] => if isPySpace c then [' '] else [c]
  | c :: d :: rest =>
    if isPySpace c ∧ isPySpace d then collapseWsChars (d :: rest)
    else (if isPySpace c then ' ' else c) :: collapseWsChars (d :: rest)

/-- The `label_display`/`label_norm` pair computed by `flush_node`, which
keys on `current_level`: labels exist only for 항/호/목/세목.  The match
discriminates on the same fields, deepest first, so each branch has the
level's own identifier at hand. -/
def flushLabels (st : ParseState) : Option String × Option String :=
  match st.semok, st.mok, st.ho, st.hang with
  | some n, _, _, _ => (some (toString n ++ ")"), some (toString n ++ "p"))
  | none, some c, _, _ => (some (display_mok c), some (⟨[c]⟩ : String))
  | none, none, some n, _ => (some (toString n ++ "."), some (toString n))
  | none, none, none, some n => (some (display_hang n), some (toString n))
  | none, none, none, none => (none, none)

/-- The `title` field of `flush_node`:
`f"제{article_no}조({article_title})" if state.article_no and
state.article_title else None` (Python truthiness on both). -/
def nodeTitle (st : ParseState) : Option String :=
  match st.article_no, st.article_title with
  | some n, some t =>
    if n ≠ 0 ∧ t ≠ "" then some ("제" ++ toString n ++ "조(" ++ t ++ ")") else none
  | _, _ => none

/-- Clearing of buffer and page trackers done at the end of `flush_node`. -/
def clearBuf (st : ParseState) : ParseState :=
  { st with buffer_lines := [], start_page := none, end_page := none }

/-- The node record appended by `flush_node` for a non-document level. -/
def buildNode (job : Job) (st : ParseState) (lvl : MarkerLevel) : ProvisionNode :=
  let labels := flushLabels st
  let text_raw := pyStrip (joinNL st.buffer_lines)
  { id := make_id job.doc_id st job.enforcement_date
    doc_id := job.doc_id
    doc_type := job.doc_type
    law_name_ko := job.official_name_ko
    «abbrev» := job.«abbrev»
    title := nodeTitle st
    level := levelName lvl
    path_display := build_path_display st
    path_norm := build_path_norm st
    label_display := labels.1
    label_norm := labels.2
    text_raw := text_raw
    text_clean := pyStrip ⟨collapseWsChars text_raw.data⟩
    parent_ids := []
    article_no := st.article_no
    chapter_no := st.chapter_no
    section_no := st.section_no
    unit_index := ⟨st.hang, st.ho, st.mok, st.semok⟩
    effective_from := job.enforcement_date
    effective_to := none
    is_current := true
    promulgation_date := job.promulgation_date
    enforcement_date := some job.enforcement_date
    source := ⟨pyBasename job.pdf, [st.start_page.getD 0 + 1, st.end_page.getD 0 + 1]⟩ }

/-- `flush_node` as a pure function: on an empty buffer it returns (no node,
unchanged state); on a document-level buffer it discards the buffer; else it
builds the node and clears buffer and page trackers. -/
def flushPure (job : Job) (st : ParseState) : Option ProvisionNode × ParseState :=
  if st.buffer_lines = [] then (none, st)
  else
    match current_level st with
    | none => (none, clearBuf st)
    | some lvl => (some (buildNode job st lvl), clearBuf st)

/-- `list.startswith`-style prefix test over characters. -/
def startsWithL : List Char → List Char → Bool
  | _, [] => true
  | [], _ :: _ => false
  | h :: t, p :: ps => h = p && startsWithL t ps

/-- `re.search` of a literal pattern: the pattern occurs at some position. -/
def searchSub (hay pat : List Char) : Bool :=
  match hay with
  | [] => startsWithL [] pat
  | _ :: t => startsWithL hay pat || searchSub t pat

/-- Literal-alternation `re.search` on a line. -/
def containsRx (s pat : String) : Bool := searchSub s.data pat.data

/-- Consume an exact literal. -/
def eatLit (pat cs : List Char) : Option (List Char) :=
  match pat with
  | [] => some cs
  | p :: ps =>
    match cs with
    | c :: t => if c = p then eatLit ps t else none
    | [] => none

/-- Tail `(에|를)?\s*(참조|따른다)` of the `단순참조` rule, as a boolean
match-exists test (the optional group is a disjunction of both branches). -/
def danTail (cs : List Char) : Bool :=
  let core := fun (l : List Char) =>
    let l2 := l.dropWhile isPySpace
    (eatLit "참조".data l2).isSome || (eatLit "따른다".data l2).isSome
  (match cs with
   | c :: t => (c = '에' || c = '를') && core t
   | [] => false) || core cs

/-- Optional group `(의\d+)?` followed by continuation `k`. -/
def optUi (k : List Char → Bool) (cs : List Char) : Bool :=
  (match eatChar '의' cs with
   | some r1 => (match digits1 r1 with | some (_, r2) => k r2 | none => false)
   | none => false) || k cs

/-- Optional group `(제\d+항)?` or `(제\d+호)?` followed by continuation. -/
def optJeGroup (last : Char) (k : List Char → Bool) (cs : List Char) : Bool :=
  (match eatChar '제' cs with
   | some r1 =>
     match digits1 r1 with
     | some (_, r2) => (match eatChar last r2 with | some r3 => k r3 | none => false)
     | none => false
   | none => false) || k cs

/-- The `단순참조` pattern
`제\d+조(의\d+)?(제\d+항)?(제\d+호)?(에|를)?\s*(참조|따른다)` anchored at
one position. -/
def danAt (cs : List Char) : Bool :=
  match eatChar '제' cs with
  | none => false
  | some r1 =>
    match digits1 r1 with
    | none => false
    | some (_, r2) =>
      match eatChar '조' r2 with
      | none => false
      | some r3 => optUi (optJeGroup '항' (optJeGroup '호' danTail)) r3

/-- `re.search` of the `단순참조` pattern: a match at some position. -/
def danSearch : List Char → Bool
  | [] => false
  | l@(_ :: t) => danAt l || danSearch t

/-- The rule names of `EDGE_RULES`, in order. -/
def edgeRuleNames : List String := ["위임", "세부화", "준용", "단순참조"]

/-- `rx.search(s)` truthiness for each compiled rule of `EDGE_RULES`. -/
def ruleMatches (name s : String) : Bool :=
  if name = "위임" then containsRx s "대통령령으로 정한다" || containsRx s "시행령으로 정한다"
  else if name = "세부화" then containsRx s "시행규칙으로 정한다" || containsRx s "규칙으로 정한다"
  else if name = "준용" then containsRx s "준용한다"
  else danSearch s.data

/-- The ordered list of rule types matching a buffered line (the edge loop
tests every rule independently). -/
def edgeHits (s : String) : List String :=
  edgeRuleNames.filter (fun t => ruleMatches t s)

/-- `f"e-{edge_counter:06d}"`. -/
def pad6 (n : Nat) : String :=
  let s := toString n
  ⟨List.replicate (6 - s.length) '0' ++ s.data⟩

/-- One `EdgeRecord` as appended by the edge loop, with counter value `k`. -/
def mkEdge (job : Job) (st : ParseState) (s : String) (k : Nat) (etype : String) : EdgeRecord :=
  { edge_id := "e-" ++ pad6 k
    edge_type := etype
    from_id := make_id job.doc_id st job.enforcement_date
    to_id := none
    anchors := [⟨s.data.take 120⟩]
    match_confidence := if etype ≠ "단순참조" then (0.70 : Rat) else (0.55 : Rat) }

/-- The `edge_counter += 1` / `edges.append(…)` loop: each matching rule in
order gets the next counter value. -/
def numberEdges (job : Job) (st : ParseState) (s : String) : Nat → List String → List EdgeRecord
  | _, [] => []
  | k, t :: ts => mkEdge job st s (k + 1) t :: numberEdges job st s (k + 1) ts

/-- Result of processing one input line: the node flushed by a marker (if
any), the residual body line buffered (if any), the new edge records, the
new edge counter, and the new cursor. -/
structure LineResult where
  flushed : Option ProvisionNode
  body : Option String
  edges : List EdgeRecord
  counter : Nat
  state : ParseState
deriving DecidableEq

/-- The body-accumulation tail of the loop (`# 본문 축적`): on a nonempty
residual `s`, set the start page if unset, always set the end page, append
to the buffer; retry title capture when `state.article_no` is truthy; then
emit one edge per matching rule when the job enables edges, numbering each
with the incremented counter.  The edges read the cursor after the title
update (which `make_id` ignores). -/
def accumBody (job : Job) (k : Nat) (nd : Option ProvisionNode)
    (st2 : ParseState) (pidx : Nat) (s : String) : LineResult :=
  if s = "" then ⟨nd, none, [], k, st2⟩
  else
    let st3 := { st2 with
      start_page := match st2.start_page with | none => some pidx | some a => some a
      end_page := some pidx
      buffer_lines := st2.buffer_lines ++ [s] }
    let st4 := if pyTruthy st3.article_no then applyTitle st3 s else st3
    let hits := if job.emit_edges then edgeHits s else []
    ⟨nd, some s, numberEdges job st4 s k hits, k + hits.length, st4⟩

/-- One iteration of the inner loop of `parse_pdf` on a raw line: strip it,
skip it when blank, dispatch on the matched marker (flushing the open node,
resetting the levels at and below the marker, installing the new counter,
capturing an inline article title for 조), then accumulate any residual
body text. -/
def lineStep (job : Job) (k : Nat) (st : ParseState) (pidx : Nat) (line : String) : LineResult :=
  let s := pyStrip line
  if s = "" then ⟨none, none, [], k, st⟩
  else
    match classify st.article_no.isSome s with
    | .jangM n =>
      let fp := flushPure job st
      ⟨fp.1, none, [], k, { reset_lower fp.2 .jang with chapter_no := some n }⟩
    | .jeolM n =>
      let fp := flushPure job st
      ⟨fp.1, none, [], k, { reset_lower fp.2 .jeol with section_no := some n }⟩
    | .joM n =>
      let fp := flushPure job st
      ⟨fp.1, none, [], k, applyTitle { reset_lower fp.2 .jo with article_no := some n } s⟩
    | .hangM c res =>
      let fp := flushPure job st
      accumBody job k fp.1 { reset_lower fp.2 .hang with hang := circledMap c } pidx res
    | .hoM n res =>
      let fp := flushPure job st
      accumBody job k fp.1 { reset_lower fp.2 .ho with ho := some n } pidx res
    | .mokM c res =>
      let fp := flushPure job st
      accumBody job k fp.1 { reset_lower fp.2 .mok with mok := some (normalize_mok c) } pidx res
    | .semokM n res =>
      let fp := flushPure job st
      accumBody job k fp.1 { reset_lower fp.2 .semok with semok := some n } pidx res
    | .noMarker => accumBody job k none st pidx s

/-- The accumulating outputs of `parse_pdf` together with the cursor. -/
structure LoopState where
  nodes : List ProvisionNode
  edges : List EdgeRecord
  edge_counter : Nat
  state : ParseState

/-- Fold one line into the loop state. -/
def applyLine (job : Job) (ls : LoopState) (pidx : Nat) (line : String) : LoopState :=
  let r := lineStep job ls.edge_counter ls.state pidx line
  { nodes := ls.nodes ++ r.flushed.toList
    edges := ls.edges ++ r.edges
    edge_counter := r.counter
    state := r.state }

/-- The line loop of `parse_pdf` over page-indexed lines. -/
def runLines (job : Job) (ls : LoopState) : List (Nat × String) → LoopState
  | [] => ls
  | (p, line) :: rest => runLines job (applyLine job ls p line) rest

/-- Initial loop state: empty outputs, counter 0, fresh `ParseState()`. -/
def initLoop : LoopState := ⟨[], [], 0, emptyState⟩

/-- `parse_pdf` on its page-indexed line sequence (PDF extraction,
`enumerate` and `splitlines` are the external collaborator producing the
`(page-index, line)` pairs): fold every line, then perform the final flush. -/
def parse_pdf (job : Job) (input : List (Nat × String)) :
    List ProvisionNode × List EdgeRecord :=
  let fin := runLines job initLoop input
  let fp := flushPure job fin.state
  (fin.nodes ++ fp.1.toList, fin.edges)

end GenJsonl

end SanRag

namespace SanRag

namespace GenVertex

/-- 32-bit truncation. -/
def w32 (n : Nat) : Nat := n % 4294967296

/-- 32-bit left rotation (argument below `2^32`). -/
def rotl (k n : Nat) : Nat := (n % 2 ^ (32 - k)) * 2 ^ k + n / 2 ^ (32 - k)

/-- 32-bit complement. -/
def wnot (n : Nat) : Nat := Nat.xor n 4294967295

/-- UTF-8 encoding of one code point (`str.encode("utf-8")`). -/
def utf8Char (c : Char) : List Nat :=
  let n := c.toNat
  if n < 0x80 then [n]
  else if n < 0x800 then [0xC0 + n / 64, 0x80 + n % 64]
  else if n < 0x10000 then [0xE0 + n / 4096, 0x80 + n / 64 % 64, 0x80 + n % 64]
  else [0xF0 + n / 262144, 0x80 + n / 4096 % 64, 0x80 + n / 64 % 64, 0x80 + n % 64]

/-- UTF-8 encoding of a string as a byte list. -/
def utf8Bytes (s : String) : List Nat := (s.data.map utf8Char).flatten

/-- `k` bytes of `n`, big-endian. -/
def beBytes : Nat → Nat → List Nat
  | 0, _ => []
  | k + 1, n => beBytes k (n / 256) ++ [n % 256]

/-- SHA-1 message padding: `0x80`, zeros to 56 mod 64, then the 64-bit
big-endian bit length. -/
def sha1Pad (msg : List Nat) : List Nat :=
  msg ++ 0x80 :: List.replicate ((119 - msg.length % 64) % 64) 0 ++ beBytes 8 (8 * msg.length)

/-- Split into 64-byte chunks (fuelled by the list length). -/
def chunksGo : Nat → List Nat → List (List Nat)
  | 0, _ => []
  | _, [] => []
  | fuel + 1, l => l.take 64 :: chunksGo fuel (l.drop 64)

/-- All 64-byte chunks of a padded message. -/
def chunks64 (l : List Nat) : List (List Nat) := chunksGo l.length l

/-- Big-endian 32-bit words of a chunk. -/
def bytesToW32 : List Nat → List Nat
  | b0 :: b1 :: b2 :: b3 :: rest =>
    (((b0 * 256 + b1) * 256 + b2) * 256 + b3) :: bytesToW32 rest
  | _ => []

/-- SHA-1 message schedule: extend 16 words to 80. -/
def expandW (w0 : Array Nat) : Array Nat :=
  (List.range 64).foldl (fun w i =>
    let j := i + 16
    w.push (rotl 1 (Nat.xor (Nat.xor (w.getD (j - 3) 0) (w.getD (j - 8) 0))
      (Nat.xor (w.getD (j - 14) 0) (w.getD (j - 16) 0))))) w0

/-- SHA-1 round function. -/
def sha1F (i b c d : Nat) : Nat :=
  if i < 20 then Nat.lor (Nat.land b c) (Nat.land (wnot b) d)
  else if i < 40 then Nat.xor b (Nat.xor c d)
  else if i < 60 then Nat.lor (Nat.lor (Nat.land b c) (Nat.land b d)) (Nat.land c d)
  else Nat.xor b (Nat.xor c d)

/-- SHA-1 round constants. -/
def sha1K (i : Nat) : Nat :=
  if i < 20 then 0x5A827999 else if i < 40 then 0x6ED9EBA1
  else if i < 60 then 0x8F1BBCDC else 0xCA62C1D6

/-- One SHA-1 round. -/
def sha1Round (w : Array Nat) (st : Nat × Nat × Nat × Nat × Nat) (i : Nat) :
    Nat × Nat × Nat × Nat × Nat :=
  match st with
  | (a, b, c, d, e) =>
    (w32 (rotl 5 a + sha1F i b c d + e + sha1K i + w.getD i 0), a, rotl 30 b, c, d)

/-- Process one 64-byte chunk. -/
def sha1Chunk (h : Nat × Nat × Nat × Nat × Nat) (chunk : List Nat) :
    Nat × Nat × Nat × Nat × Nat :=
  let w := expandW (Array.mk (bytesToW32 chunk))
  match (List.range 80).foldl (sha1Round w) h, h with
  | (a, b, c, d, e), (h0, h1, h2, h3, h4) =>
    (w32 (h0 + a), w32 (h1 + b), w32 (h2 + c), w32 (h3 + d), w32 (h4 + e))

/-- The sixteen hexadecimal digit characters. -/
def hexChars : List Char := "0123456789abcdef".data

/-- One hexadecimal digit character. -/
def hexDigit (n : Nat) : Char := hexChars.getD n '0'

/-- Exactly `k` hexadecimal digits of `n`, most significant first. -/
def toHexFixed : Nat → Nat → List Char
  | 0, _ => []
  | k + 1, n => toHexFixed k (n / 16) ++ [hexDigit (n % 16)]

/-- `hashlib.sha1(bytes).hexdigest()`: the 40-character hexadecimal digest. -/
def sha1Hex (msg : List Nat) : List Char :=
  match (chunks64 (sha1Pad msg)).foldl sha1Chunk
      (0x67452301, 0xEFCDAB89, 0x98BADCFE, 0x10325476, 0xC3D2E1F0) with
  | (h0, h1, h2, h3, h4) =>
    toHexFixed 8 h0 ++ toHexFixed 8 h1 ++ toHexFixed 8 h2 ++ toHexFixed 8 h3 ++ toHexFixed 8 h4

/-- The character class `[A-Za-z0-9_-]` admitted by the sanitizer. -/
def isIdChar (c : Char) : Bool :=
  ('A' ≤ c && c ≤ 'Z') || ('a' ≤ c && c ≤ 'z') || ('0' ≤ c && c ≤ '9') ||
  c = '_' || c = '-'

/-- `re.sub(r"[^A-Za-z0-9_-]", "_", …)` on one character. -/
def sanitizeChar (c : Char) : Char := if isIdChar c then c else '_'

/-- `re.sub(r"_+", "_", …)`: collapse each maximal underscore run. -/
def collapseU : List Char → List Char
  | [] => []
  | [c] => [c]
  | c :: d :: rest =>
    if c = '_' ∧ d = '_' then collapseU (d :: rest) else c :: collapseU (d :: rest)

/-- `str.strip("_")`. -/
def stripU (cs : List Char) : List Char :=
  ((cs.dropWhile (fun c => c = '_')).reverse.dropWhile (fun c => c = '_')).reverse

/-- The sanitizing pipeline of `make_id` in `gen_vertex_jsonl.py`: map every
character outside `[A-Za-z0-9_-]` to `_`, collapse underscore runs, trim
edge underscores; results longer than `MAX_LEN = 120` are truncated to 111
characters plus `"_"` plus the first 8 hex characters of the SHA-1 of the
sanitized string (then trimmed again); an empty result falls back to
`"doc_"` plus the first 8 hex characters of the SHA-1 of the raw string. -/
def sanitizeId (raw : String) : String :=
  let safe := stripU (collapseU (raw.data.map sanitizeChar))
  let safe2 :=
    if safe.length > 120 then
      stripU (safe.take (120 - 9) ++ '_' :: (sha1Hex (utf8Bytes ⟨safe⟩)).take 8)
    else safe
  if safe2 = [] then "doc_" ++ (⟨(sha1Hex (utf8Bytes raw)).take 8⟩ : String)
  else ⟨safe2⟩

/-- The hierarchy segments of `make_id`, joined with `"_"` and passed to the
sanitizing pipeline above. -/
def make_id (doc_id : String) (st : ParseState) (enforcement_date : String) : String :=
  let parts := [doc_id]
    ++ (match st.article_no with | some n => [toString n] | none => [])
    ++ (match st.hang with | some n => [toString n] | none => [])
    ++ (match st.ho with | some n => [toString n] | none => [])
    ++ (match st.mok with | some c => [(⟨[c]⟩ : String)] | none => [])
    ++ (match st.semok with | some n => [toString n ++ "p"] | none => [])
    ++ [dashless enforcement_date]
  sanitizeId (joinSep "_" parts)

end GenVertex

end SanRag

namespace SanRag

namespace GenJsonl

/-- The first entry of the `JOBS` list of `gen_jsonl.py`
(the 산업안전보건법 job). -/
def job0 : Job :=
  { pdf := "산업안전보건법_20251001.pdf"
    doc_id := "kr-osh-act"
    doc_type := "법률"
    official_name_ko := "산업안전보건법"
    «abbrev» := some "산안법"
    promulgation_date := some "2024-12-31"
    enforcement_date := "2025-10-01"
    emit_edges := true }

/-- The five-line scenario input of the spec, all on page index 0. -/
def scen : List (Nat × String) :=
  [(0, "제1장 총칙"), (0, "제1조(목적) 이 법은"), (0, "① 이 법은 안전을 목적으로 한다"),
   (0, "1. 첫째"), (0, "가. 세부")]

/-- A cursor with only an Article open (article 3). -/
def st9 : ParseState := { emptyState with article_no := some 3 }

/-- A body line containing the delegation phrase. -/
def line9 : String := "이에 필요한 사항은 대통령령으로 정한다."

/-- A cursor with an empty buffer but set page trackers (not producible by
the loop; exercises the empty-buffer early return of `flush_node`). -/
def stTrackers : ParseState := { emptyState with start_page := some 3, end_page := some 3 }

/-- A cursor holding one buffered body line on page 0 under an open
paragraph. -/
def stBuffered : ParseState :=
  { emptyState with
    article_no := some 1
    hang := some 2
    buffer_lines := ["본문"]
    start_page := some 0
    end_page := some 0 }

/-- Restatement of the identifier scheme in the spec's words, used to check
`make_id` by refinement: the optional segments as a `filterMap` over the
five levels in their fixed order, the date with dashes dropped, all joined
with `":"`. -/
def idSegmentsSpec (st : ParseState) : List String :=
  [st.article_no.map (fun n => toString n),
   st.hang.map (fun n => toString n),
   st.ho.map (fun n => toString n),
   st.mok.map (fun c => (⟨[c]⟩ : String)),
   st.semok.map (fun n => toString n ++ "p")].filterMap id

/-- The spec-worded identifier builder compared against `make_id`. -/
def makeIdSpec (doc_id : String) (st : ParseState) (date : String) : String :=
  joinSep ":" (doc_id :: (idSegmentsSpec st ++ [dashless date]))

/-- All buffer lines are stripped and nonempty — true of every buffer the
parse loop builds, since it only appends `strip()`ped nonempty residuals. -/
def bufferOK (st : ParseState) : Prop :=
  ∀ l ∈ st.buffer_lines, pyStrip l = l ∧ l ≠ ""

/-- The groups of residual body lines the parse keeps, rebuilt directly from
the input: `acc` accumulates the stripped residual of every non-blank body
line (marker prefix removed); a group is cut off exactly when a marker line
arrives (and at end of input), and is kept exactly when the cursor sits at a
non-document level.  Only the control state (`st`, evolved by `lineStep`) is
shared with the parser; the group content is assembled here from the
classified input lines alone. -/
def keptGroups (job : Job) (k : Nat) (st : ParseState) (acc : List String) :
    List (Nat × String) → List (List String)
  | [] => if acc ≠ [] ∧ (current_level st).isSome then [acc] else []
  | (p, line) :: rest =>
    let s := pyStrip line
    let r := lineStep job k st p line
    if s = "" then keptGroups job r.counter r.state acc rest
    else
      match classify st.article_no.isSome s with
      | .noMarker => keptGroups job r.counter r.state (acc ++ [s]) rest
      | .jangM _ | .jeolM _ | .joM _ =>
        (if acc ≠ [] ∧ (current_level st).isSome then [acc] else [])
          ++ keptGroups job r.counter r.state [] rest
      | .hangM _ res | .hoM _ res | .mokM _ res | .semokM _ res =>
        (if acc ≠ [] ∧ (current_level st).isSome then [acc] else [])
          ++ keptGroups job r.counter r.state (if res = "" then [] else [res]) rest

/-- The page-tracking invariant of the cursor, with `p` an upper bound for
every page index recorded so far: the buffer is nonempty exactly when the
start page is set, exactly when the end page is set, and the recorded pages
satisfy `start ≤ end ≤ p`. -/
def PageInv (st : ParseState) (p : Nat) : Prop :=
  (st.buffer_lines = [] ↔ st.start_page = none)
  ∧ (st.start_page = none ↔ st.end_page = none)
  ∧ (∀ a b, st.start_page = some a → st.end_page = some b → a ≤ b ∧ b ≤ p)

/-- The input's page indices start at or above `p` and never decrease —
guaranteed by `enumerate(reader.pages)` in the driver. -/
def pagesOK : Nat → List (Nat × String) → Bool
  | _, [] => true
  | p, (q, _) :: rest => decide (p ≤ q) && pagesOK q rest

/-- A node's `page_range` is a well-formed 1-based inclusive range. -/
def rangeOKb (n : ProvisionNode) : Bool :=
  match n.source.page_range with
  | [a, b] => decide (1 ≤ a) && decide (a ≤ b)
  | _ => false

end GenJsonl

end SanRag

/-! ## Theorems -/

namespace SanRag

open GenJsonl

/-- Claim C1: `reset_lower` at level `L` clears the identifier of `L` and of
every level below it (including the article title when `L` is at or above
Article) and the buffer and page trackers, while every identifier strictly
above `L` keeps its previous value; in particular a new Section preserves
the Chapter and a new Article preserves Chapter and Section while clearing
everything below and the article title. -/
theorem claim_c1 (st : ParseState) (L : MarkerLevel) :
    ((reset_lower st L).chapter_no = if levelIdx L ≤ 0 then none else st.chapter_no)
    ∧ ((reset_lower st L).section_no = if levelIdx L ≤ 1 then none else st.section_no)
    ∧ ((reset_lower st L).article_no = if levelIdx L ≤ 2 then none else st.article_no)
    ∧ ((reset_lower st L).article_title = if levelIdx L ≤ 2 then none else st.article_title)
    ∧ ((reset_lower st L).hang = if levelIdx L ≤ 3 then none else st.hang)
    ∧ ((reset_lower st L).ho = if levelIdx L ≤ 4 then none else st.ho)
    ∧ ((reset_lower st L).mok = if levelIdx L ≤ 5 then none else st.mok)
    ∧ ((reset_lower st L).semok = none)
    ∧ (reset_lower st L).buffer_lines = []
    ∧ (reset_lower st L).start_page = none
    ∧ (reset_lower st L).end_page = none
    ∧ ((reset_lower st .jeol).chapter_no = st.chapter_no
        ∧ (reset_lower st .jeol).article_no = none
        ∧ (reset_lower st .jeol).article_title = none
        ∧ (reset_lower st .jeol).hang = none ∧ (reset_lower st .jeol).ho = none
        ∧ (reset_lower st .jeol).mok = none ∧ (reset_lower st .jeol).semok = none)
    ∧ ((reset_lower st .jo).chapter_no = st.chapter_no
        ∧ (reset_lower st .jo).section_no = st.section_no
        ∧ (reset_lower st .jo).article_no = none
        ∧ (reset_lower st .jo).article_title = none
        ∧ (reset_lower st .jo).hang = none ∧ (reset_lower st .jo).ho = none
        ∧ (reset_lower st .jo).mok = none ∧ (reset_lower st .jo).semok = none) := by
  cases L <;> simp [reset_lower, levelIdx]

/-- Claim C2: `make_id` produces exactly the document id, the set-level
segments in the fixed Article/Paragraph/Item/SubItem/SubSubItem order
(unset levels omitted, sub-item as its alphabetic code, sub-sub-item with
the `p` suffix), then the separator-free enforcement date, joined by
colons. -/
theorem claim_c2 (d : String) (st : ParseState) (date : String) :
    GenJsonl.make_id d st date = makeIdSpec d st date := by
  rcases st with ⟨c, sec, a, t, h, ho, m, se, b, sp, ep⟩
  cases a <;> cases h <;> cases ho <;> cases m <;> cases se <;>
    simp [GenJsonl.make_id, makeIdSpec, idSegmentsSpec]

/-- Claim C3: the parser and both identifier builders are pure functions of
their input, so two runs on identical input and job produce identical node
streams and byte-identical identifiers in both the colon-joined and the
sanitized variant. -/
theorem claim_c3 (job : Job) (input : List (Nat × String)) (d : String)
    (st : ParseState) (date : String) :
    parse_pdf job input = parse_pdf job input
    ∧ (parse_pdf job input).1.map (fun n => n.id)
        = (parse_pdf job input).1.map (fun n => n.id)
    ∧ GenJsonl.make_id d st date = GenJsonl.make_id d st date
    ∧ GenVertex.make_id d st date = GenVertex.make_id d st date :=
  ⟨rfl, rfl, rfl, rfl⟩

/-- Claim C5, counterexample: the scenario input yields three nodes, not
four, and the deepest node's normalized path carries the leading `jang:1`
segment, so it is not `[jo:1, hang:1, ho:1, mok:a]`. -/
theorem claim_c5_cex :
    (parse_pdf job0 scen).1.length = 3
    ∧ ¬ (parse_pdf job0 scen).1.length = 4
    ∧ ((parse_pdf job0 scen).1.getLast?.map (fun n => n.path_norm))
        = some ["jang:1", "jo:1", "hang:1", "ho:1", "mok:a"]
    ∧ ¬ ((parse_pdf job0 scen).1.getLast?.map (fun n => n.path_norm))
        = some ["jo:1", "hang:1", "ho:1", "mok:a"] := by
  refine ⟨by decide, by decide, by decide, by decide⟩

/-- Claim C5, amended: the scenario yields exactly three nodes (the article
line contributes no standalone node and its residual text is discarded);
the deepest node's identifier ends in `:1:1:a:20251001` and its normalized
path is `[jang:1, jo:1, hang:1, ho:1, mok:a]`. -/
theorem claim_c5 :
    (parse_pdf job0 scen).1.length = 3
    ∧ ((parse_pdf job0 scen).1.getLast?.map (fun n => n.id))
        = some "kr-osh-act:1:1:1:a:20251001"
    ∧ ((parse_pdf job0 scen).1.getLast?.map
        (fun n => (":1:1:a:20251001" : String).data.isSuffixOf n.id.data))
        = some true
    ∧ ((parse_pdf job0 scen).1.getLast?.map (fun n => n.path_norm))
        = some ["jang:1", "jo:1", "hang:1", "ho:1", "mok:a"] := by
  refine ⟨by decide, by decide, by decide, by decide⟩

end SanRag

namespace SanRag

open GenJsonl

/-- Claim C7, counterexample: on a cursor with an empty buffer but a set
page tracker, `flush_node` returns without clearing the trackers, so the
start page survives the call. -/
theorem claim_c7_cex :
    (flushPure job0 stTrackers).2.start_page = some 3
    ∧ ¬ ((flushPure job0 stTrackers).2.start_page = none
        ∧ (flushPure job0 stTrackers).2.end_page = none) := by
  refine ⟨by decide, by decide⟩

/-- Claim C7, amended: on every cursor in which an empty buffer comes with
unset page trackers (true of every cursor the parse loop produces), any call
to `flush_node` leaves an empty buffer and unset start/end pages — covering
the emitting, document-level, and empty-buffer cases — and a second
immediately following flush emits nothing, so two consecutive flushes append
at most one node. -/
theorem claim_c7 (job : Job) (st : ParseState)
    (h : st.buffer_lines = [] → st.start_page = none ∧ st.end_page = none) :
    (flushPure job st).2.buffer_lines = []
    ∧ (flushPure job st).2.start_page = none
    ∧ (flushPure job st).2.end_page = none
    ∧ (flushPure job (flushPure job st).2).1 = none := by
  by_cases hb : st.buffer_lines = []
  · obtain ⟨h1, h2⟩ := h hb
    simp [flushPure, hb, h1, h2]
  · cases hcl : current_level st <;> simp [flushPure, hb, hcl, clearBuf]

/-- Claim C7, witness at a cursor holding one buffered line on page 0. -/
theorem claim_c7_witness :
    (flushPure job0 stBuffered).2.buffer_lines = []
    ∧ (flushPure job0 stBuffered).2.start_page = none
    ∧ (flushPure job0 stBuffered).2.end_page = none
    ∧ (flushPure job0 (flushPure job0 stBuffered).2).1 = none :=
  claim_c7 job0 stBuffered (by decide)

/-- Claim C8, counterexample: `갚` (offset 26 from `가`) is accepted by the
sub-item pattern `([가-힣])\.` but `normalize_mok` maps it to `'{'`, which
is not an alphabetic code. -/
theorem claim_c8_cex :
    normalize_mok '갚' = '{'
    ∧ matchMok "갚.".data = some ('갚', [])
    ∧ ¬ (normalize_mok '갚').isAlpha = true := by
  refine ⟨by decide, by decide, by decide⟩

set_option maxRecDepth 2048 in
/-- Claim C8, amended: `normalize_mok` is total; syllables with offset at
most 25 from `가` map to the alphabetic codes `a`–`z` (the first syllable
`가` to `'a'`); out-of-range inputs — offset above 50, or below `가` — map
to the fallback `'a'` rather than erroring; but offsets 26–50 produce
non-alphabetic characters `chr(97 + offset)`. -/
theorem claim_c8 :
    (∀ c : Char, 0xAC00 ≤ c.toNat → c.toNat ≤ 0xAC00 + 25 →
      normalize_mok c = Char.ofNat (97 + (c.toNat - 0xAC00))
      ∧ (normalize_mok c).isAlpha = true)
    ∧ normalize_mok '가' = 'a'
    ∧ (∀ c : Char, 0xAC00 + 50 < c.toNat → normalize_mok c = 'a')
    ∧ (∀ c : Char, c.toNat < 0xAC00 → normalize_mok c = 'a')
    ∧ (∀ c : Char, 0xAC00 + 25 < c.toNat → c.toNat ≤ 0xAC00 + 50 →
      normalize_mok c = Char.ofNat (97 + (c.toNat - 0xAC00))) := by
  have heq : ∀ c : Char, 0xAC00 ≤ c.toNat → c.toNat ≤ 0xAC00 + 50 →
      normalize_mok c = Char.ofNat (97 + (c.toNat - 0xAC00)) := by
    intro c h1 h2
    have hcond : ¬ (((c.toNat : Int) - 0xAC00) < 0 ∨ ((c.toNat : Int) - 0xAC00) > 50) := by
      omega
    have harg : ((c.toNat : Int) - 0xAC00).toNat = c.toNat - 0xAC00 := by omega
    simp only [normalize_mok]
    rw [if_neg hcond, harg]
  refine ⟨?_, by decide, ?_, ?_, ?_⟩
  · intro c h1 h2
    refine ⟨heq c h1 (by omega), ?_⟩
    rw [heq c h1 (by omega)]
    set k := c.toNat - 0xAC00 with hk
    have hk25 : k ≤ 25 := by omega
    interval_cases k <;> decide
  · intro c h
    have hcond : (((c.toNat : Int) - 0xAC00) < 0 ∨ ((c.toNat : Int) - 0xAC00) > 50) := by
      omega
    simp only [normalize_mok]
    rw [if_pos hcond]
  · intro c h
    have hcond : (((c.toNat : Int) - 0xAC00) < 0 ∨ ((c.toNat : Int) - 0xAC00) > 50) := by
      omega
    simp only [normalize_mok]
    rw [if_pos hcond]
  · intro c h1 h2
    exact heq c (by omega) h2

/-- Claim C8, witness: `각` (offset 1) maps to the alphabetic `'b'`, and the
Korean list marker `나` (offset 1176, out of range) falls back to `'a'`. -/
theorem claim_c8_witness :
    normalize_mok '각' = 'b'
    ∧ (normalize_mok '각').isAlpha = true
    ∧ normalize_mok '나' = 'a' :=
  ⟨((claim_c8.1 '각' (by decide) (by decide)).1).trans (by decide),
   (claim_c8.1 '각' (by decide) (by decide)).2,
   claim_c8.2.2.1 '나' (by decide)⟩

end SanRag

namespace SanRag

open GenJsonl

/-- The edge numbering loop emits one record per matching rule, preserving
the rule order in the `edge_type` fields. -/
theorem numberEdges_map_type (job : Job) (st : ParseState) (s : String) :
    ∀ (k : Nat) (hits : List String),
      (numberEdges job st s k hits).map (fun e => e.edge_type) = hits := by
  intro k hits
  induction hits generalizing k with
  | nil => rfl
  | cons t ts ih => simp [numberEdges, mkEdge, ih]

/-- Every record the edge numbering loop emits is `mkEdge` at some counter
value and some matching rule. -/
theorem numberEdges_mem (job : Job) (st : ParseState) (s : String) :
    ∀ (k : Nat) (hits : List String) (e : EdgeRecord),
      e ∈ numberEdges job st s k hits →
      ∃ i t, t ∈ hits ∧ e = mkEdge job st s i t := by
  intro k hits
  induction hits generalizing k with
  | nil => intro e he; simp [numberEdges] at he
  | cons t ts ih =>
    intro e he
    rcases (by simpa [numberEdges] using he : e = mkEdge job st s (k + 1) t ∨
        e ∈ numberEdges job st s (k + 1) ts) with he1 | he2
    · exact ⟨k + 1, t, by simp, he1⟩
    · rcases ih (k + 1) e he2 with ⟨i, u, hu, he3⟩
      exact ⟨i, u, by simp [hu], he3⟩

/-- The C9 property at the body-accumulation step. -/
theorem accumBody_edges_spec (job : Job) (k : Nat) (nd : Option ProvisionNode)
    (st2 : ParseState) (pidx : Nat) (s b : String)
    (hemit : job.emit_edges = true)
    (hbody : (accumBody job k nd st2 pidx s).body = some b) :
    (accumBody job k nd st2 pidx s).edges.map (fun e => e.edge_type) = edgeHits b
    ∧ ∀ e ∈ (accumBody job k nd st2 pidx s).edges,
        e.to_id = none
        ∧ e.anchors = [(⟨b.data.take 120⟩ : String)]
        ∧ e.from_id = GenJsonl.make_id job.doc_id (accumBody job k nd st2 pidx s).state
            job.enforcement_date
        ∧ e.match_confidence
            = (if e.edge_type ≠ "단순참조" then (0.70 : Rat) else (0.55 : Rat)) := by
  by_cases hs : s = ""
  · simp [accumBody, hs] at hbody
  · have hsb : s = b := by simpa [accumBody, hs] using hbody
    subst hsb
    constructor
    · simp [accumBody, hs, hemit, numberEdges_map_type]
    · intro e he
      have he2 : e ∈ numberEdges job
          (if pyTruthy ({ st2 with
              start_page := match st2.start_page with | none => some pidx | some a => some a
              end_page := some pidx
              buffer_lines := st2.buffer_lines ++ [s] } : ParseState).article_no
            then applyTitle { st2 with
              start_page := match st2.start_page with | none => some pidx | some a => some a
              end_page := some pidx
              buffer_lines := st2.buffer_lines ++ [s] } s
            else { st2 with
              start_page := match st2.start_page with | none => some pidx | some a => some a
              end_page := some pidx
              buffer_lines := st2.buffer_lines ++ [s] })
          s k (edgeHits s) := by
        simpa [accumBody, hs, hemit] using he
      rcases numberEdges_mem job _ s k (edgeHits s) e he2 with ⟨i, t, ht, rfl⟩
      refine ⟨rfl, rfl, ?_, ?_⟩
      · simp [accumBody, hs, hemit, mkEdge]
      · simp [mkEdge]

end SanRag

namespace SanRag

open GenJsonl

/-- Claim C9: with edge emission enabled, the buffered body line of a
processed input line yields exactly one edge candidate per matching rule
(in rule order); every candidate has a null `to_id`, an anchor that is the
first at-most-120 characters of the line, `from_id` equal to the identifier
of the cursor open at match time, and confidence `0.70` for
delegation/elaboration/incorporation and `0.55` for the generic
cross-reference rule. -/
theorem claim_c9 (job : Job) (k : Nat) (st : ParseState) (pidx : Nat) (line b : String)
    (hemit : job.emit_edges = true)
    (hbody : (lineStep job k st pidx line).body = some b) :
    (lineStep job k st pidx line).edges.map (fun e => e.edge_type) = edgeHits b
    ∧ ∀ e ∈ (lineStep job k st pidx line).edges,
        e.to_id = none
        ∧ e.anchors = [(⟨b.data.take 120⟩ : String)]
        ∧ e.from_id = GenJsonl.make_id job.doc_id (lineStep job k st pidx line).state
            job.enforcement_date
        ∧ e.match_confidence
            = (if e.edge_type ≠ "단순참조" then (0.70 : Rat) else (0.55 : Rat)) := by
  by_cases hs : pyStrip line = ""
  · simp [lineStep, hs] at hbody
  · cases hc : classify st.article_no.isSome (pyStrip line) with
    | jangM n => simp [lineStep, hs, hc] at hbody
    | jeolM n => simp [lineStep, hs, hc] at hbody
    | joM n => simp [lineStep, hs, hc] at hbody
    | hangM c res =>
      have hb2 : (accumBody job k (flushPure job st).1
          { reset_lower (flushPure job st).2 .hang with hang := circledMap c }
          pidx res).body = some b := by simpa [lineStep, hs, hc] using hbody
      simpa [lineStep, hs, hc] using accumBody_edges_spec job k _ _ pidx res b hemit hb2
    | hoM n res =>
      have hb2 : (accumBody job k (flushPure job st).1
          { reset_lower (flushPure job st).2 .ho with ho := some n }
          pidx res).body = some b := by simpa [lineStep, hs, hc] using hbody
      simpa [lineStep, hs, hc] using accumBody_edges_spec job k _ _ pidx res b hemit hb2
    | mokM c res =>
      have hb2 : (accumBody job k (flushPure job st).1
          { reset_lower (flushPure job st).2 .mok with mok := some (normalize_mok c) }
          pidx res).body = some b := by simpa [lineStep, hs, hc] using hbody
      simpa [lineStep, hs, hc] using accumBody_edges_spec job k _ _ pidx res b hemit hb2
    | semokM n res =>
      have hb2 : (accumBody job k (flushPure job st).1
          { reset_lower (flushPure job st).2 .semok with semok := some n }
          pidx res).body = some b := by simpa [lineStep, hs, hc] using hbody
      simpa [lineStep, hs, hc] using accumBody_edges_spec job k _ _ pidx res b hemit hb2
    | noMarker =>
      have hb2 : (accumBody job k none st pidx (pyStrip line)).body = some b := by
        simpa [lineStep, hs, hc] using hbody
      simpa [lineStep, hs, hc] using accumBody_edges_spec job k _ _ pidx (pyStrip line) b hemit hb2

/-- Claim C9, witness: the delegation line under an article-only cursor
produces exactly one `위임` edge anchored to the article-level identifier
`kr-osh-act:3:20251001`. -/
theorem claim_c9_witness :
    (lineStep job0 0 st9 0 line9).edges.map (fun e => e.edge_type) = ["위임"]
    ∧ ∀ e ∈ (lineStep job0 0 st9 0 line9).edges,
        e.to_id = none ∧ e.from_id = "kr-osh-act:3:20251001" := by
  have h := claim_c9 job0 0 st9 0 line9 line9 rfl (by decide)
  refine ⟨h.1.trans (by decide), fun e he => ⟨(h.2 e he).1, ?_⟩⟩
  rw [(h.2 e he).2.2.1]
  decide

end SanRag

namespace SanRag

namespace GenVertex

/-- Sanitized characters are always in the admitted class. -/
theorem sanitizeChar_ok (c : Char) : isIdChar (sanitizeChar c) = true := by
  unfold sanitizeChar
  split
  · assumption
  · decide

/-- Collapsing underscore runs introduces no new characters. -/
theorem mem_collapseU : ∀ (cs : List Char) (c : Char), c ∈ collapseU cs → c ∈ cs := by
  intro cs
  induction cs with
  | nil => intro c h; simp [collapseU] at h
  | cons a l ih =>
    intro c h
    cases l with
    | nil => simpa [collapseU] using h
    | cons d rest =>
      by_cases hab : a = '_' ∧ d = '_'
      · exact List.mem_cons_of_mem a (ih c (by simpa [collapseU, hab] using h))
      · rcases (by simpa [collapseU, hab] using h :
            c = a ∨ c ∈ collapseU (d :: rest)) with rfl | h2
        · simp
        · exact List.mem_cons_of_mem a (ih c h2)

/-- Trimming underscores from the ends introduces no new characters. -/
theorem mem_stripU (cs : List Char) (c : Char) (h : c ∈ stripU cs) : c ∈ cs := by
  unfold stripU at h
  have h1 := (List.dropWhile_sublist _).subset (List.mem_reverse.mp h)
  exact (List.dropWhile_sublist _).subset (List.mem_reverse.mp h1)

/-- Trimming underscores never lengthens the list. -/
theorem stripU_length (cs : List Char) : (stripU cs).length ≤ cs.length := by
  unfold stripU
  calc ((cs.dropWhile (fun c => c = '_')).reverse.dropWhile
          (fun c => c = '_')).reverse.length
      = ((cs.dropWhile (fun c => c = '_')).reverse.dropWhile (fun c => c = '_')).length := by
        simp
    _ ≤ (cs.dropWhile (fun c => c = '_')).reverse.length := (List.dropWhile_sublist _).length_le
    _ = (cs.dropWhile (fun c => c = '_')).length := by simp
    _ ≤ cs.length := (List.dropWhile_sublist _).length_le

/-- Every hexadecimal digit character is in the admitted class. -/
theorem hexDigit_ok (n : Nat) : isIdChar (hexDigit n) = true := by
  by_cases h : n < 16
  · interval_cases n <;> decide
  · have hlen : hexChars.length ≤ n := by
      have : hexChars.length = 16 := by decide
      omega
    have hd : hexDigit n = '0' := List.getD_eq_default _ _ hlen
    rw [hd]; decide

/-- Every character of a fixed-width hexadecimal rendering is admitted. -/
theorem toHexFixed_ok : ∀ (k n : Nat), ∀ c ∈ toHexFixed k n, isIdChar c = true := by
  intro k
  induction k with
  | zero => intro n c h; simp [toHexFixed] at h
  | succ k ih =>
    intro n c h
    rcases (by simpa [toHexFixed] using h : c ∈ toHexFixed k (n / 16) ∨ c = hexDigit (n % 16))
      with h2 | rfl
    · exact ih _ c h2
    · exact hexDigit_ok _

/-- Every character of a SHA-1 hexadecimal digest is admitted. -/
theorem sha1Hex_ok (msg : List Nat) : ∀ c ∈ sha1Hex msg, isIdChar c = true := by
  intro c hc
  unfold sha1Hex at hc
  rcases hfold : (chunks64 (sha1Pad msg)).foldl sha1Chunk
      (0x67452301, 0xEFCDAB89, 0x98BADCFE, 0x10325476, 0xC3D2E1F0) with ⟨h0, h1, h2, h3, h4⟩
  rw [hfold] at hc
  simp only [List.mem_append] at hc
  rcases hc with ((((hc | hc) | hc) | hc) | hc) <;> exact toHexFixed_ok _ _ c hc

end GenVertex

end SanRag

namespace SanRag

namespace GenVertex

/-- The sanitizing pipeline yields only admitted characters, at most
`MAX_LEN = 120` of them, and never an empty string. -/
theorem sanitizeId_ok (raw : String) :
    (∀ c ∈ (sanitizeId raw).data, isIdChar c = true)
    ∧ (sanitizeId raw).length ≤ 120
    ∧ sanitizeId raw ≠ "" := by
  have take8_ok : ∀ (msg : List Nat) (c : Char), c ∈ (sha1Hex msg).take 8 →
      isIdChar c = true :=
    fun msg c hc => sha1Hex_ok msg c ((List.take_sublist _ _).subset hc)
  set safe := stripU (collapseU (raw.data.map sanitizeChar)) with hsafe
  set safe2 := (if safe.length > 120 then
      stripU (safe.take (120 - 9) ++ '_' :: (sha1Hex (utf8Bytes ⟨safe⟩)).take 8)
    else safe) with hsafe2
  have hid : sanitizeId raw =
      if safe2 = [] then "doc_" ++ (⟨(sha1Hex (utf8Bytes raw)).take 8⟩ : String)
      else ⟨safe2⟩ := rfl
  have hsafe_ok : ∀ c ∈ safe, isIdChar c = true := by
    intro c hc
    have h1 := mem_collapseU _ c (mem_stripU _ c hc)
    rcases List.mem_map.mp h1 with ⟨x, _, rfl⟩
    exact sanitizeChar_ok x
  have hsafe2_ok : ∀ c ∈ safe2, isIdChar c = true := by
    rw [hsafe2]
    by_cases hlen : safe.length > 120
    · rw [if_pos hlen]
      intro c hc
      have h1 := mem_stripU _ c hc
      rcases List.mem_append.mp h1 with h2 | h2
      · exact hsafe_ok c ((List.take_sublist _ _).subset h2)
      · rcases List.mem_cons.mp h2 with rfl | h3
        · decide
        · exact take8_ok _ c h3
    · rw [if_neg hlen]
      exact hsafe_ok
  have hsafe2_len : safe2.length ≤ 120 := by
    rw [hsafe2]
    by_cases hlen : safe.length > 120
    · rw [if_pos hlen]
      have h1 : (safe.take (120 - 9)).length ≤ 111 := List.length_take_le _ _
      have h2 : ((sha1Hex (utf8Bytes ⟨safe⟩)).take 8).length ≤ 8 := List.length_take_le _ _
      have h3 := stripU_length (safe.take (120 - 9) ++ '_' ::
        (sha1Hex (utf8Bytes ⟨safe⟩)).take 8)
      simp only [List.length_append, List.length_cons] at h3
      omega
    · rw [if_neg hlen]
      omega
  rw [hid]
  by_cases hempty : safe2 = []
  · rw [if_pos hempty]
    have hdoc : ("doc_" : String).data = ['d', 'o', 'c', '_'] := by decide
    refine ⟨?_, ?_, ?_⟩
    · intro c hc
      rw [String.data_append] at hc
      rcases List.mem_append.mp hc with hc | hc
      · rw [hdoc] at hc
        rcases (by simpa using hc : c = 'd' ∨ c = 'o' ∨ c = 'c' ∨ c = '_') with
          rfl | rfl | rfl | rfl <;> decide
      · exact take8_ok _ c (by simpa using hc)
    · show (("doc_" ++ (⟨(sha1Hex (utf8Bytes raw)).take 8⟩ : String)).data).length ≤ 120
      rw [String.data_append, hdoc]
      have := List.length_take_le 8 (sha1Hex (utf8Bytes raw))
      simp only [List.length_append]
      simp only [List.length_cons, List.length_nil]
      omega
    · intro h
      have h2 := String.ext_iff.mp h
      rw [String.data_append, hdoc] at h2
      simp at h2
  · rw [if_neg hempty]
    refine ⟨hsafe2_ok, hsafe2_len, ?_⟩
    intro h
    exact hempty (by simpa using String.ext_iff.mp h)

end GenVertex

end SanRag

namespace SanRag

/-- Claim C4: for every document id, cursor state and enforcement date, the
sanitized search-index identifier contains only characters from
`[A-Za-z0-9_-]`, never exceeds the configured maximum length of 120
characters (longer sanitized strings are truncated with an 8-character hash
suffix), and is never empty (an empty sanitization result falls back to a
hash-derived placeholder). -/
theorem claim_c4 (d : String) (st : ParseState) (date : String) :
    (∀ c ∈ (GenVertex.make_id d st date).data, GenVertex.isIdChar c = true)
    ∧ (GenVertex.make_id d st date).length ≤ 120
    ∧ GenVertex.make_id d st date ≠ "" := by
  unfold GenVertex.make_id
  exact GenVertex.sanitizeId_ok _

end SanRag

namespace SanRag

/-- Claim C4, witness at the 산업안전보건법 document id with an empty cursor:
the first character is admitted, and the id obeys the length and
nonemptiness bounds. -/
theorem claim_c4_witness :
    GenVertex.isIdChar 'k' = true
    ∧ (GenVertex.make_id "kr-osh-act" emptyState "2025-10-01").length ≤ 120
    ∧ GenVertex.make_id "kr-osh-act" emptyState "2025-10-01" ≠ "" := by
  have h := claim_c4 "kr-osh-act" emptyState "2025-10-01"
  exact ⟨h.1 'k' (by decide), h.2.1, h.2.2⟩

end SanRag

namespace SanRag

open GenJsonl

/-- Title capture changes only the article title, never the buffer or page
trackers. -/
theorem applyTitle_fields (st : ParseState) (s : String) :
    (applyTitle st s).buffer_lines = st.buffer_lines
    ∧ (applyTitle st s).start_page = st.start_page
    ∧ (applyTitle st s).end_page = st.end_page := by
  unfold applyTitle
  cases titleOf s.data <;> simp

/-- The page invariant is monotone in its bound. -/
theorem pageInv_weaken (st : ParseState) (p q : Nat) (h : PageInv st p) (hpq : p ≤ q) :
    PageInv st q :=
  ⟨h.1, h.2.1, fun a b ha hb =>
    ⟨(h.2.2 a b ha hb).1, le_trans (h.2.2 a b ha hb).2 hpq⟩⟩

/-- A cursor with empty buffer and unset trackers satisfies the invariant
for every bound. -/
theorem pageInv_cleared (st : ParseState) (h1 : st.buffer_lines = [])
    (h2 : st.start_page = none) (h3 : st.end_page = none) (p : Nat) : PageInv st p := by
  refine ⟨by simp [h1, h2], by simp [h2, h3], ?_⟩
  intro a b ha hb
  rw [h2] at ha
  cases ha

/-- Body accumulation at page `pidx` preserves the page invariant with the
new bound `pidx`. -/
theorem accumBody_pageInv (job : Job) (k : Nat) (nd : Option ProvisionNode)
    (st2 : ParseState) (pidx : Nat) (s : String) (p : Nat)
    (hinv : PageInv st2 p) (hp : p ≤ pidx) :
    PageInv (accumBody job k nd st2 pidx s).state pidx := by
  by_cases hs : s = ""
  · simpa [accumBody, hs] using pageInv_weaken st2 p pidx hinv hp
  · have hstate : (accumBody job k nd st2 pidx s).state.buffer_lines = st2.buffer_lines ++ [s]
        ∧ (accumBody job k nd st2 pidx s).state.start_page
            = (match st2.start_page with | none => some pidx | some a => some a)
        ∧ (accumBody job k nd st2 pidx s).state.end_page = some pidx := by
      unfold accumBody
      rw [if_neg hs]
      dsimp only
      split
      · exact applyTitle_fields _ _
      · exact ⟨rfl, rfl, rfl⟩
    refine ⟨?_, ?_, ?_⟩
    · rw [hstate.1, hstate.2.1]
      cases st2.start_page <;> simp
    · rw [hstate.2.1, hstate.2.2]
      cases st2.start_page <;> simp
    · intro a b ha hb
      rw [hstate.2.2] at hb
      rw [hstate.2.1] at ha
      cases hsp : st2.start_page with
      | none =>
        rw [hsp] at ha
        simp at ha hb
        omega
      | some a0 =>
        rw [hsp] at ha
        simp at ha hb
        have hend : ∃ b0, st2.end_page = some b0 := by
          cases hep : st2.end_page with
          | none => exact absurd (hinv.2.1.mpr hep) (by simp [hsp])
          | some b0 => exact ⟨b0, rfl⟩
        obtain ⟨b0, hb0⟩ := hend
        have := hinv.2.2 a0 b0 hsp hb0
        omega

/-- Flushing restores the invariant for an arbitrary bound. -/
theorem flushPure_pageInv (job : Job) (st : ParseState) (p : Nat) (h : PageInv st p)
    (q : Nat) : PageInv (flushPure job st).2 q := by
  unfold flushPure
  by_cases hb : st.buffer_lines = []
  · rw [if_pos hb]
    exact pageInv_cleared st hb (h.1.mp hb) (h.2.1.mp (h.1.mp hb)) q
  · rw [if_neg hb]
    cases current_level st <;>
      exact pageInv_cleared _ (by simp [clearBuf]) (by simp [clearBuf]) (by simp [clearBuf]) q

/-- Each line-processing step preserves the page invariant, rebasing the
bound to the processed page index. -/
theorem lineStep_pageInv (job : Job) (k : Nat) (st : ParseState) (pidx : Nat)
    (line : String) (p : Nat) (hinv : PageInv st p) (hp : p ≤ pidx) :
    PageInv (lineStep job k st pidx line).state pidx := by
  by_cases hs : pyStrip line = ""
  · simpa [lineStep, hs] using pageInv_weaken st p pidx hinv hp
  · cases hc : classify st.article_no.isSome (pyStrip line) with
    | jangM n =>
      have he : (lineStep job k st pidx line).state
          = { reset_lower (flushPure job st).2 .jang with chapter_no := some n } := by
        simp [lineStep, hs, hc]
      rw [he]
      exact pageInv_cleared _ (by simp [reset_lower]) (by simp [reset_lower])
        (by simp [reset_lower]) pidx
    | jeolM n =>
      have he : (lineStep job k st pidx line).state
          = { reset_lower (flushPure job st).2 .jeol with section_no := some n } := by
        simp [lineStep, hs, hc]
      rw [he]
      exact pageInv_cleared _ (by simp [reset_lower]) (by simp [reset_lower])
        (by simp [reset_lower]) pidx
    | joM n =>
      have he : (lineStep job k st pidx line).state
          = applyTitle { reset_lower (flushPure job st).2 .jo with article_no := some n }
              (pyStrip line) := by
        simp [lineStep, hs, hc]
      rw [he]
      have hf := applyTitle_fields
        { reset_lower (flushPure job st).2 .jo with article_no := some n } (pyStrip line)
      exact pageInv_cleared _ (hf.1.trans (by simp [reset_lower]))
        (hf.2.1.trans (by simp [reset_lower])) (hf.2.2.trans (by simp [reset_lower])) pidx
    | hangM c res =>
      have he : (lineStep job k st pidx line).state
          = (accumBody job k (flushPure job st).1
              { reset_lower (flushPure job st).2 .hang with hang := circledMap c }
              pidx res).state := by
        simp [lineStep, hs, hc]
      rw [he]
      exact accumBody_pageInv job k _ _ pidx res pidx
        (pageInv_cleared _ (by simp [reset_lower]) (by simp [reset_lower])
          (by simp [reset_lower]) pidx) (le_refl _)
    | hoM n res =>
      have he : (lineStep job k st pidx line).state
          = (accumBody job k (flushPure job st).1
              { reset_lower (flushPure job st).2 .ho with ho := some n }
              pidx res).state := by
        simp [lineStep, hs, hc]
      rw [he]
      exact accumBody_pageInv job k _ _ pidx res pidx
        (pageInv_cleared _ (by simp [reset_lower]) (by simp [reset_lower])
          (by simp [reset_lower]) pidx) (le_refl _)
    | mokM c res =>
      have he : (lineStep job k st pidx line).state
          = (accumBody job k (flushPure job st).1
              { reset_lower (flushPure job st).2 .mok with mok := some (normalize_mok c) }
              pidx res).state := by
        simp [lineStep, hs, hc]
      rw [he]
      exact accumBody_pageInv job k _ _ pidx res pidx
        (pageInv_cleared _ (by simp [reset_lower]) (by simp [reset_lower])
          (by simp [reset_lower]) pidx) (le_refl _)
    | semokM n res =>
      have he : (lineStep job k st pidx line).state
          = (accumBody job k (flushPure job st).1
              { reset_lower (flushPure job st).2 .semok with semok := some n }
              pidx res).state := by
        simp [lineStep, hs, hc]
      rw [he]
      exact accumBody_pageInv job k _ _ pidx res pidx
        (pageInv_cleared _ (by simp [reset_lower]) (by simp [reset_lower])
          (by simp [reset_lower]) pidx) (le_refl _)
    | noMarker =>
      have he : (lineStep job k st pidx line).state
          = (accumBody job k none st pidx (pyStrip line)).state := by
        simp [lineStep, hs, hc]
      rw [he]
      exact accumBody_pageInv job k none st pidx _ p hinv hp

end SanRag

namespace SanRag

open GenJsonl

theorem accumBody_flushed (job : Job) (k : Nat) (nd : Option ProvisionNode)
    (st2 : ParseState) (pidx : Nat) (s : String) :
    (accumBody job k nd st2 pidx s).flushed = nd := by
  unfold accumBody
  split <;> rfl

theorem flushPure_node_range (job : Job) (st : ParseState) (p : Nat) (h : PageInv st p)
    (n : ProvisionNode) (hn : (flushPure job st).1 = some n) : rangeOKb n = true := by
  unfold flushPure at hn
  by_cases hb : st.buffer_lines = []
  · rw [if_pos hb] at hn
    cases hn
  · rw [if_neg hb] at hn
    cases hcl : current_level st with
    | none => rw [hcl] at hn; cases hn
    | some lvl =>
      rw [hcl] at hn
      have hn2 : buildNode job st lvl = n := by
        simpa using hn
      have hstart : ∃ a, st.start_page = some a := by
        cases hsp : st.start_page with
        | none => exact absurd (h.1.mpr hsp) hb
        | some a => exact ⟨a, rfl⟩
      obtain ⟨a, ha⟩ := hstart
      have hend : ∃ b, st.end_page = some b := by
        cases hep : st.end_page with
        | none => exact absurd (h.2.1.mpr hep) (by simp [ha])
        | some b => exact ⟨b, rfl⟩
      obtain ⟨b, hbnd⟩ := hend
      have hab := (h.2.2 a b ha hbnd).1
      rw [← hn2]
      unfold rangeOKb buildNode
      dsimp only
      rw [ha, hbnd]
      simp
      omega

theorem runLines_pageInv_nodes (job : Job) :
    ∀ (input : List (Nat × String)) (ls : LoopState) (p : Nat),
      PageInv ls.state p → pagesOK p input = true →
      (∀ n ∈ ls.nodes, rangeOKb n = true) →
      (∃ q, PageInv (runLines job ls input).state q)
      ∧ (∀ n ∈ (runLines job ls input).nodes, rangeOKb n = true) := by
  intro input
  induction input with
  | nil =>
    intro ls p h hpg hnodes
    exact ⟨⟨p, h⟩, by simpa [runLines] using hnodes⟩
  | cons pl rest ih =>
    obtain ⟨q, line⟩ := pl
    intro ls p h hpg hnodes
    obtain ⟨hpq, hrest⟩ : p ≤ q ∧ pagesOK q rest = true := by
      simpa [pagesOK] using hpg
    have hstep : PageInv (applyLine job ls q line).state q :=
      lineStep_pageInv job ls.edge_counter ls.state q line p h hpq
    have hnodes2 : ∀ n ∈ (applyLine job ls q line).nodes, rangeOKb n = true := by
      intro n hn
      rcases (by simpa [applyLine] using hn :
          n ∈ ls.nodes ∨ (lineStep job ls.edge_counter ls.state q line).flushed = some n)
        with hn1 | hfl
      · exact hnodes n hn1
      · have hsrc : (lineStep job ls.edge_counter ls.state q line).flushed
            = (flushPure job ls.state).1
            ∨ (lineStep job ls.edge_counter ls.state q line).flushed = none := by
          by_cases hs : pyStrip line = ""
          · right; simp [lineStep, hs]
          · cases hc : classify ls.state.article_no.isSome (pyStrip line) with
            | jangM m => left; simp [lineStep, hs, hc]
            | jeolM m => left; simp [lineStep, hs, hc]
            | joM m => left; simp [lineStep, hs, hc]
            | hangM c res => left; simp [lineStep, hs, hc, accumBody_flushed]
            | hoM m res => left; simp [lineStep, hs, hc, accumBody_flushed]
            | mokM c res => left; simp [lineStep, hs, hc, accumBody_flushed]
            | semokM m res => left; simp [lineStep, hs, hc, accumBody_flushed]
            | noMarker => right; simp [lineStep, hs, hc, accumBody_flushed]
        rcases hsrc with hsrc | hsrc
        · exact flushPure_node_range job ls.state p h n (hsrc ▸ hfl)
        · rw [hsrc] at hfl; cases hfl
    exact ih (applyLine job ls q line) q hstep hrest hnodes2

end SanRag

namespace SanRag

open GenJsonl

/-- Claim C10: for page-monotone input (as produced by `enumerate` over the
pages), the cursor invariant — buffer nonempty iff start page set iff end
page set, with start ≤ end bounded by the pages seen — holds after the whole
run, is preserved by every single line-processing step, and consequently
every emitted node carries a well-formed 1-based inclusive page range
`[a, b]` with `1 ≤ a ≤ b`. -/
theorem claim_c10 (job : Job) (input : List (Nat × String))
    (h : pagesOK 0 input = true) :
    (∀ n ∈ (parse_pdf job input).1, rangeOKb n = true)
    ∧ (∃ q, PageInv (runLines job initLoop input).state q)
    ∧ (∀ (k : Nat) (st : ParseState) (pidx : Nat) (line : String) (p : Nat),
        PageInv st p → p ≤ pidx →
        PageInv (lineStep job k st pidx line).state pidx) := by
  have hinit : PageInv initLoop.state 0 := pageInv_cleared _ rfl rfl rfl 0
  have hrun := runLines_pageInv_nodes job input initLoop 0 hinit h
    (by intro n hn; cases hn)
  refine ⟨?_, hrun.1, fun k st pidx line p h1 h2 => lineStep_pageInv job k st pidx line p h1 h2⟩
  intro n hn
  rcases (by simpa [parse_pdf] using hn :
      n ∈ (runLines job initLoop input).nodes
      ∨ (flushPure job (runLines job initLoop input).state).1 = some n) with hn1 | hn2
  · exact hrun.2 n hn1
  · obtain ⟨q, hq⟩ := hrun.1
    exact flushPure_node_range job _ q hq n hn2

/-- Claim C10, witness: on the concrete five-line scenario every emitted
node's page range is well-formed. -/
theorem claim_c10_witness :
    ((parse_pdf job0 scen).1.all rangeOKb) = true := by
  have h := claim_c10 job0 scen (by decide)
  exact List.all_eq_true.mpr (fun n hn => h.1 n hn)

end SanRag

namespace SanRag

open GenJsonl

/-- The raw text of the node a flush emits is the trimmed newline-join of
the buffered lines, emitted exactly when the buffer is nonempty at a
non-document level. -/
theorem flush_text (job : Job) (st : ParseState) :
    (flushPure job st).1.toList.map (fun n => n.text_raw)
    = (if st.buffer_lines ≠ [] ∧ (current_level st).isSome
       then [pyStrip (joinNL st.buffer_lines)] else []) := by
  unfold flushPure
  by_cases hb : st.buffer_lines = []
  · simp [hb]
  · cases hcl : current_level st <;> simp [hb, hcl, buildNode]

/-- A line step flushes a node exactly when a marker matched on a nonempty
stripped line while a nonempty non-document buffer was open, and that node's
raw text is the trimmed join of the cut-off group. -/
theorem lineStep_flushed_text (job : Job) (k : Nat) (st : ParseState) (pidx : Nat)
    (line : String) :
    (lineStep job k st pidx line).flushed.toList.map (fun n => n.text_raw)
    = (if pyStrip line ≠ ""
          ∧ classify st.article_no.isSome (pyStrip line) ≠ Classified.noMarker
          ∧ st.buffer_lines ≠ [] ∧ (current_level st).isSome
       then [pyStrip (joinNL st.buffer_lines)] else []) := by
  by_cases hs : pyStrip line = ""
  · simp [lineStep, hs]
  · cases hc : classify st.article_no.isSome (pyStrip line) with
    | jangM n => simp [lineStep, hs, hc, flush_text]
    | jeolM n => simp [lineStep, hs, hc, flush_text]
    | joM n => simp [lineStep, hs, hc, flush_text]
    | hangM c res => simp [lineStep, hs, hc, accumBody_flushed, flush_text]
    | hoM n res => simp [lineStep, hs, hc, accumBody_flushed, flush_text]
    | mokM c res => simp [lineStep, hs, hc, accumBody_flushed, flush_text]
    | semokM n res => simp [lineStep, hs, hc, accumBody_flushed, flush_text]
    | noMarker => simp [lineStep, hs, hc, accumBody_flushed]

end SanRag

namespace SanRag

open GenJsonl

/-- Blank-input body accumulation leaves the cursor unchanged. -/
theorem accumBody_state_blank (job : Job) (k : Nat) (nd : Option ProvisionNode)
    (st2 : ParseState) (pidx : Nat) :
    (accumBody job k nd st2 pidx "").state = st2 := by
  unfold accumBody
  simp

/-- Nonempty body accumulation appends exactly the residual line to the
buffer. -/
theorem accumBody_state_buffer (job : Job) (k : Nat) (nd : Option ProvisionNode)
    (st2 : ParseState) (pidx : Nat) (s : String) (hs : ¬ s = "") :
    (accumBody job k nd st2 pidx s).state.buffer_lines = st2.buffer_lines ++ [s] := by
  unfold accumBody
  rw [if_neg hs]
  dsimp only
  split
  · exact (applyTitle_fields _ _).1
  · rfl

/-- A line that strips to blank is skipped entirely. -/
theorem lineStep_blank (job : Job) (k : Nat) (st : ParseState) (pidx : Nat)
    (line : String) (hs : pyStrip line = "") :
    lineStep job k st pidx line = ⟨none, none, [], k, st⟩ := by
  simp [lineStep, hs]

/-- Generalized text-reconstruction invariant of the parse loop: assuming
the cursor's buffer currently holds exactly the accumulated group `acc`,
the raw texts of all nodes still to be emitted (final flush included) are
the trimmed newline-joins of the kept groups rebuilt from the input. -/
theorem runLines_text (job : Job) :
    ∀ (input : List (Nat × String)) (ls : LoopState) (acc : List String),
      ls.state.buffer_lines = acc →
      ((runLines job ls input).nodes
        ++ (flushPure job (runLines job ls input).state).1.toList).map (fun n => n.text_raw)
      = ls.nodes.map (fun n => n.text_raw)
        ++ (keptGroups job ls.edge_counter ls.state acc input).map
            (fun g => pyStrip (joinNL g)) := by
  intro input
  induction input with
  | nil =>
    intro ls acc hacc
    simp only [runLines, keptGroups]
    rw [List.map_append, flush_text, hacc]
    congr 1
    split <;> simp
  | cons pl rest ih =>
    obtain ⟨p, line⟩ := pl
    intro ls acc hacc
    rw [show runLines job ls ((p, line) :: rest)
        = runLines job (applyLine job ls p line) rest from rfl]
    by_cases hs : pyStrip line = ""
    · have hls := lineStep_blank job ls.edge_counter ls.state p line hs
      rw [ih (applyLine job ls p line) acc (by simp [applyLine, hls, hacc])]
      simp [applyLine, hls, keptGroups, hs]
    · cases hc : classify ls.state.article_no.isSome (pyStrip line) with
      | jangM n =>
        have hbuf : (applyLine job ls p line).state.buffer_lines = [] := by
          show (lineStep job ls.edge_counter ls.state p line).state.buffer_lines = []
          have he : (lineStep job ls.edge_counter ls.state p line).state
              = { reset_lower (flushPure job ls.state).2 .jang with chapter_no := some n } := by
            simp [lineStep, hs, hc]
          rw [he]
          simp [reset_lower]
        rw [ih (applyLine job ls p line) _ hbuf]
        simp only [keptGroups]
        rw [show (applyLine job ls p line).nodes
            = ls.nodes ++ (lineStep job ls.edge_counter ls.state p line).flushed.toList from rfl]
        rw [List.map_append, lineStep_flushed_text]
        rw [if_neg hs]
        simp only [hc]
        rw [List.map_append, ← hacc, List.append_assoc]
        congr 2
        simp [hs]
        split <;> simp
      | jeolM n =>
        have hbuf : (applyLine job ls p line).state.buffer_lines = [] := by
          show (lineStep job ls.edge_counter ls.state p line).state.buffer_lines = []
          have he : (lineStep job ls.edge_counter ls.state p line).state
              = { reset_lower (flushPure job ls.state).2 .jeol with section_no := some n } := by
            simp [lineStep, hs, hc]
          rw [he]
          simp [reset_lower]
        rw [ih (applyLine job ls p line) _ hbuf]
        simp only [keptGroups]
        rw [show (applyLine job ls p line).nodes
            = ls.nodes ++ (lineStep job ls.edge_counter ls.state p line).flushed.toList from rfl]
        rw [List.map_append, lineStep_flushed_text]
        rw [if_neg hs]
        simp only [hc]
        rw [List.map_append, ← hacc, List.append_assoc]
        congr 2
        simp [hs]
        split <;> simp
      | joM n =>
        have hbuf : (applyLine job ls p line).state.buffer_lines = [] := by
          show (lineStep job ls.edge_counter ls.state p line).state.buffer_lines = []
          have he : (lineStep job ls.edge_counter ls.state p line).state
              = applyTitle { reset_lower (flushPure job ls.state).2 .jo with article_no := some n } (pyStrip line) := by
            simp [lineStep, hs, hc]
          rw [he, (applyTitle_fields _ _).1]
          simp [reset_lower]
        rw [ih (applyLine job ls p line) _ hbuf]
        simp only [keptGroups]
        rw [show (applyLine job ls p line).nodes
            = ls.nodes ++ (lineStep job ls.edge_counter ls.state p line).flushed.toList from rfl]
        rw [List.map_append, lineStep_flushed_text]
        rw [if_neg hs]
        simp only [hc]
        rw [List.map_append, ← hacc, List.append_assoc]
        congr 2
        simp [hs]
        split <;> simp
      | hangM c res =>
        have hbuf : (applyLine job ls p line).state.buffer_lines
            = (if res = "" then [] else [res]) := by
          show (lineStep job ls.edge_counter ls.state p line).state.buffer_lines = _
          have he : (lineStep job ls.edge_counter ls.state p line).state
              = (accumBody job ls.edge_counter (flushPure job ls.state).1
                  { reset_lower (flushPure job ls.state).2 .hang with hang := circledMap c } p res).state := by
            simp [lineStep, hs, hc]
          rw [he]
          by_cases hr : res = ""
          · rw [if_pos hr, hr, accumBody_state_blank]
            simp [reset_lower]
          · rw [if_neg hr, accumBody_state_buffer job _ _ _ _ res hr]
            simp [reset_lower]
        rw [ih (applyLine job ls p line) _ hbuf]
        simp only [keptGroups]
        rw [show (applyLine job ls p line).nodes
            = ls.nodes ++ (lineStep job ls.edge_counter ls.state p line).flushed.toList from rfl]
        rw [List.map_append, lineStep_flushed_text]
        rw [if_neg hs]
        simp only [hc]
        rw [List.map_append, ← hacc, List.append_assoc]
        congr 2
        simp [hs]
        split <;> simp
      | hoM n res =>
        have hbuf : (applyLine job ls p line).state.buffer_lines
            = (if res = "" then [] else [res]) := by
          show (lineStep job ls.edge_counter ls.state p line).state.buffer_lines = _
          have he : (lineStep job ls.edge_counter ls.state p line).state
              = (accumBody job ls.edge_counter (flushPure job ls.state).1
                  { reset_lower (flushPure job ls.state).2 .ho with ho := some n } p res).state := by
            simp [lineStep, hs, hc]
          rw [he]
          by_cases hr : res = ""
          · rw [if_pos hr, hr, accumBody_state_blank]
            simp [reset_lower]
          · rw [if_neg hr, accumBody_state_buffer job _ _ _ _ res hr]
            simp [reset_lower]
        rw [ih (applyLine job ls p line) _ hbuf]
        simp only [keptGroups]
        rw [show (applyLine job ls p line).nodes
            = ls.nodes ++ (lineStep job ls.edge_counter ls.state p line).flushed.toList from rfl]
        rw [List.map_append, lineStep_flushed_text]
        rw [if_neg hs]
        simp only [hc]
        rw [List.map_append, ← hacc, List.append_assoc]
        congr 2
        simp [hs]
        split <;> simp
      | mokM c res =>
        have hbuf : (applyLine job ls p line).state.buffer_lines
            = (if res = "" then [] else [res]) := by
          show (lineStep job ls.edge_counter ls.state p line).state.buffer_lines = _
          have he : (lineStep job ls.edge_counter ls.state p line).state
              = (accumBody job ls.edge_counter (flushPure job ls.state).1
                  { reset_lower (flushPure job ls.state).2 .mok with mok := some (normalize_mok c) } p res).state := by
            simp [lineStep, hs, hc]
          rw [he]
          by_cases hr : res = ""
          · rw [if_pos hr, hr, accumBody_state_blank]
            simp [reset_lower]
          · rw [if_neg hr, accumBody_state_buffer job _ _ _ _ res hr]
            simp [reset_lower]
        rw [ih (applyLine job ls p line) _ hbuf]
        simp only [keptGroups]
        rw [show (applyLine job ls p line).nodes
            = ls.nodes ++ (lineStep job ls.edge_counter ls.state p line).flushed.toList from rfl]
        rw [List.map_append, lineStep_flushed_text]
        rw [if_neg hs]
        simp only [hc]
        rw [List.map_append, ← hacc, List.append_assoc]
        congr 2
        simp [hs]
        split <;> simp
      | semokM n res =>
        have hbuf : (applyLine job ls p line).state.buffer_lines
            = (if res = "" then [] else [res]) := by
          show (lineStep job ls.edge_counter ls.state p line).state.buffer_lines = _
          have he : (lineStep job ls.edge_counter ls.state p line).state
              = (accumBody job ls.edge_counter (flushPure job ls.state).1
                  { reset_lower (flushPure job ls.state).2 .semok with semok := some n } p res).state := by
            simp [lineStep, hs, hc]
          rw [he]
          by_cases hr : res = ""
          · rw [if_pos hr, hr, accumBody_state_blank]
            simp [reset_lower]
          · rw [if_neg hr, accumBody_state_buffer job _ _ _ _ res hr]
            simp [reset_lower]
        rw [ih (applyLine job ls p line) _ hbuf]
        simp only [keptGroups]
        rw [show (applyLine job ls p line).nodes
            = ls.nodes ++ (lineStep job ls.edge_counter ls.state p line).flushed.toList from rfl]
        rw [List.map_append, lineStep_flushed_text]
        rw [if_neg hs]
        simp only [hc]
        rw [List.map_append, ← hacc, List.append_assoc]
        congr 2
        simp [hs]
        split <;> simp
      | noMarker =>
        have hbuf : (applyLine job ls p line).state.buffer_lines = acc ++ [pyStrip line] := by
          show (lineStep job ls.edge_counter ls.state p line).state.buffer_lines = _
          have he : (lineStep job ls.edge_counter ls.state p line).state
              = (accumBody job ls.edge_counter none ls.state p (pyStrip line)).state := by
            simp [lineStep, hs, hc]
          rw [he, accumBody_state_buffer job _ _ _ _ _ hs, hacc]
        rw [ih (applyLine job ls p line) _ hbuf]
        simp only [keptGroups]
        rw [show (applyLine job ls p line).nodes
            = ls.nodes ++ (lineStep job ls.edge_counter ls.state p line).flushed.toList from rfl]
        rw [List.map_append, lineStep_flushed_text]
        rw [if_neg hs]
        simp only [hc]
        simp
        rfl

/-- Claim C6: the emitted nodes' raw texts, in emission order, are exactly
the trimmed newline-joins of the groups of kept body lines, where the
groups are rebuilt from the input alone: every non-blank line's stripped
residual (marker prefix removed) is accumulated, a group is cut at each
marker line and at end of input, and a group is kept exactly when the
cursor sits at a non-document level — so the only content dropped is the
preamble accumulated before the first structural marker, and no other body
content is silently lost. -/
theorem claim_c6 (job : Job) (input : List (Nat × String)) :
    (parse_pdf job input).1.map (fun n => n.text_raw)
    = (keptGroups job 0 emptyState [] input).map (fun g => pyStrip (joinNL g)) := by
  have h := runLines_text job input initLoop [] rfl
  simpa [parse_pdf] using h

end SanRag
